import Mathlib

/-!
Shallow embedding of `langgraph/checkpoint/aerospike/saver.py` (class
`AerospikeSaver`): a checkpoint store over a key-value backend, with a
per-scope latest pointer, a bounded newest-first timeline, and a
per-checkpoint write-set ledger.

Modelling conventions:
* Python strings are `String`, Python ints are `Int`.
* A Python value that can be `None` is an `Option`; Python truthiness on
  strings (`if not s`) is `truthy` below (`None` and `""` are falsy).
* The backend (one Aerospike namespace with three sets `set_cp`, `set_meta`,
  `set_writes`) is a `Store` with one association list per set, keyed by the
  same string keys the source derives; a `put` prepends, a `get` takes the
  first match (last-write-wins).
* The external codec (`self.serde.dumps_typed` / `loads_typed`) and the
  external `WRITES_IDX_MAP` table are fields of `Saver`, since both are
  collaborators imported from outside this repository.
* Backend put failures (`aerospike.exception.AerospikeError`, re-raised by
  `_put` as `RuntimeError`) are injected through a predicate `pf` naming the
  keys whose backend write fails; `noFail` injects none.
* A raised Python exception is an `Except.error`; the `Store` component of a
  result keeps the writes that succeeded before the raise.
-/

set_option maxHeartbeats 1000000

namespace ASaver

/-- Python-style primitive values held in metadata dictionaries, filters and
write payloads. `PyVal.none` models Python `None`. -/
inductive PyVal where
  | none
  | str (s : String)
  | int (n : Int)
  | bool (b : Bool)
deriving DecidableEq, Repr

/-- A Python `dict[str, ...]` as an association list; lookups return the first
matching key. -/
abbrev Meta := List (String × PyVal)

/-- The checkpoint dictionary passed to `put`. The saver reads only its `id`
and `ts` keys (`checkpoint.get("id")`, `checkpoint.get("ts")`); everything
else is opaque and collected in `data`. -/
structure Checkpoint where
  id : Option String
  ts : Option Int
  data : PyVal
deriving DecidableEq, Repr

/-- Serialized payload bytes. The saver treats the bytes produced by
`serde.dumps_typed` as opaque, so the byte universe is modelled as a sum of
the payload shapes that get serialized, plus raw strings for corrupt data. -/
inductive Blob where
  | ckB (c : Checkpoint)
  | metaB (m : Meta)
  | valB (v : PyVal)
  | rawB (s : String)
deriving DecidableEq, Repr

/-- The external codec interface: `dumps α = (type tag, bytes)`,
`loads (type tag, bytes) = decoded value or failure`. -/
structure Serde (α : Type) where
  dumps : α → String × Blob
  loads : String × Blob → Option α

/-- One entry of the write-set ledger, as built by `put_writes`
(the `new_item` dict). -/
structure WriteItem where
  task_id : String
  task_path : String
  channel : String
  idx : Int
  wtype : String
  value : Blob
  ts : Int
deriving DecidableEq, Repr

/-- One element of the JSON list stored in the timeline record's `items` bin.
`pair ts cid` is a conforming element `[ts, cid]`; `junk` is any element that
fails the source's shape check (`isinstance(it, list) and len(it) == 2 and
isinstance(it[1], str)`) and is skipped by `_read_timeline_items`. -/
inductive TLItem where
  | pair (ts : Int) (cid : String)
  | junk
deriving DecidableEq, Repr

/-- The value of the timeline record's `items` bin: a JSON string that either
parses to a list (`parsed`) or fails to parse (`unparseable`, making
`json.loads` raise so `_read_timeline_items` returns `[]`). -/
inductive TLVal where
  | parsed (l : List TLItem)
  | unparseable
deriving DecidableEq, Repr

/-- The value of the ledger record's `writes` bin: either a proper list of
write entries, or `wbad` — a truthy non-list value (the malformed case). -/
inductive WVal where
  | wlist (l : List WriteItem)
  | wbad
deriving DecidableEq, Repr

/-- Bins of a main checkpoint record (set `set_cp`), as written by `put`.
Fields are `Option` because a record not written by this code may lack bins
(`bins.get(...)` returns `None`), which `get_tuple` checks for. -/
structure CpBins where
  thread_id : String
  checkpoint_ns : String
  checkpoint_id : String
  p_checkpoint_id : Option String
  cp_type : Option String
  checkpoint : Option Blob
  meta_type : Option String
  metadata : Option Blob
  ts : Int
deriving DecidableEq, Repr

/-- Bins of a record in the meta set (`set_meta`), which holds both the latest
pointer record (`checkpoint_id`, `ts` bins) and the timeline record (`items`
bin). A missing bin is `none`. -/
structure MetaBins where
  checkpoint_id : Option String
  ts : Option Int
  items : Option TLVal
deriving DecidableEq, Repr

/-- Bins of a ledger record (set `set_writes`). -/
structure WritesBins where
  writes : Option WVal
deriving DecidableEq, Repr

/-- The backend state: one association list per Aerospike set, keyed by the
derived key strings. The head of each list is the most recent write. -/
structure Store where
  cpRecs : List (String × CpBins)
  metaRecs : List (String × MetaBins)
  writeRecs : List (String × WritesBins)
deriving DecidableEq, Repr

/-- The empty backend. -/
def emptyStore : Store := ⟨[], [], []⟩

deriving instance DecidableEq for Except

/-- A RunnableConfig as consumed by `_ids_from_config` and `put`:
`thread_id`, `checkpoint_ns`, `checkpoint_id` come from `config["configurable"]`;
`md_thread_id`, `md_checkpoint_ns` are the `thread_id` / `checkpoint_ns`
entries of the top-level `config["metadata"]` dict used as fallbacks; and
`metadata` is that same top-level metadata dict as merged by `put`. -/
structure Config where
  thread_id : Option String := Option.none
  checkpoint_ns : Option String := Option.none
  checkpoint_id : Option String := Option.none
  md_thread_id : Option String := Option.none
  md_checkpoint_ns : Option String := Option.none
  metadata : Meta := []
deriving DecidableEq, Repr

/-- Backend keys tagged with the set they live in, used to name which backend
write fails. -/
inductive BKey where
  | cp (k : String)
  | meta (k : String)
  | wr (k : String)
deriving DecidableEq, Repr

/-- Raised Python exceptions: `valErr` is `ValueError`, `backendErr` is the
`RuntimeError` that `_put` raises on `AerospikeError` (tagged with the failing
key), `typeErr` is the `TypeError` from iterating a non-list, `decodeErr` is
an uncaught `serde.loads_typed` failure. -/
inductive Err where
  | valErr (msg : String)
  | backendErr (k : BKey)
  | typeErr
  | decodeErr
deriving DecidableEq, Repr

/-- The saver's configuration: the `timeline_max` constructor argument, the
external `WRITES_IDX_MAP` table, and the three typed views of the external
codec (checkpoint payloads, metadata payloads, write values). -/
structure Saver where
  timeline_max : Nat
  idxMap : String → Option Int
  sCk : Serde Checkpoint
  sMeta : Serde Meta
  sVal : Serde PyVal

/-- `__init__` clamps the cap: `self.timeline_max = max(1, int(timeline_max))`. -/
def Saver.tmax (sv : Saver) : Nat := max 1 sv.timeline_max

/-- The result of `get_tuple`: a `CheckpointTuple`. `parent_id` is the
checkpoint id inside `parent_config` when present. -/
structure CkTuple where
  thread_id : String
  checkpoint_ns : String
  checkpoint_id : String
  checkpoint : Checkpoint
  metadata : Meta
  parent_id : Option String
  pendingWrites : List (String × String × PyVal)
deriving DecidableEq, Repr

/-- Association list lookup: first match wins (the backend returns the most
recent write). -/
def alGet {β : Type} (l : List (String × β)) (k : String) : Option β :=
  match l with
  | [] => Option.none
  | (k', v) :: rest => if k' = k then some v else alGet rest k

/-- Association list update: prepend, so later writes shadow earlier ones. -/
def alPut {β : Type} (l : List (String × β)) (k : String) (v : β) :
    List (String × β) :=
  (k, v) :: l

/-- Python truthiness for an optional string: `None` and `""` are falsy. -/
def truthy : Option String → Bool
  | Option.none => false
  | some s => s ≠ ""

/-- Python `a or b` on optional strings: keeps `a` when truthy, else `b`. -/
def pyOr (a b : Option String) : Option String :=
  if truthy a then a else b

/-- `_ids_from_config`: returns `(thread_id, checkpoint_ns, checkpoint_id)`,
raising `ValueError` when the thread id is missing or falsy. -/
def idsFromConfig (cfg : Config) :
    Except Err (String × String × Option String) :=
  let tid := pyOr cfg.thread_id cfg.md_thread_id
  if truthy tid then
    let ns := pyOr (pyOr cfg.checkpoint_ns cfg.md_checkpoint_ns) (some "")
    Except.ok (tid.getD "", ns.getD "", cfg.checkpoint_id)
  else
    Except.error (Err.valErr "configurable.thread_id is required in RunnableConfig")

/-- The reserved key separator `SEP = "|"`. -/
def SEP : String := "|"

/-- `_key_cp`: key string of a main checkpoint record. -/
def keyCp (tid ns cid : String) : String :=
  tid ++ SEP ++ ns ++ SEP ++ cid

/-- `_key_writes`: key string of a ledger record. -/
def keyWrites (tid ns cid : String) : String :=
  tid ++ SEP ++ ns ++ SEP ++ cid

/-- `_key_latest`: key string of the latest pointer record. -/
def keyLatest (tid ns : String) : String :=
  tid ++ SEP ++ ns ++ SEP ++ "__latest__"

/-- `_key_timeline`: key string of the timeline record. -/
def keyTimeline (tid ns : String) : String :=
  tid ++ SEP ++ ns ++ SEP ++ "__timeline__"

/-- The shape filter inside `_read_timeline_items`: keeps conforming
`[ts, cid]` elements, drops the rest. -/
def cleanItems : List TLItem → List (Int × String)
  | [] => []
  | TLItem.pair t c :: rest => (t, c) :: cleanItems rest
  | TLItem.junk :: rest => cleanItems rest

/-- `_read_timeline_items`: absent record, missing `items` bin (default
`"[]"`), or unparseable JSON all yield `[]`; a parsed list is shape-filtered. -/
def readTimelineItems (st : Store) (k : String) : List (Int × String) :=
  match alGet st.metaRecs k with
  | Option.none => []
  | some bins =>
    match bins.items with
    | Option.none => []
    | some (TLVal.parsed l) => cleanItems l
    | some TLVal.unparseable => []

/-- The timeline update inside `put` (lines 208-211): drop any entry with the
same id, prepend the new entry, truncate to the cap when exceeded. -/
def timelineRecord (cap : Nat) (items : List (Int × String)) (ts : Int)
    (cid : String) : List (Int × String) :=
  let items1 := items.filter (fun p => p.2 ≠ cid)
  let items2 := (ts, cid) :: items1
  if items2.length > cap then items2.take cap else items2

/-- A failure-injection predicate with no failures. -/
def noFail : BKey → Bool := fun _ => false

/-- Python `dict.update`: entries of `o` override entries of `m`; with
first-match lookup, placing `o` first realises the override. -/
def metaUpdate (m o : Meta) : Meta :=
  o ++ m.filter (fun p => (alGet o p.1).isNone)

/-- `put`: persist the checkpoint record, overwrite the latest pointer, update
the timeline. Returns the (possibly partially) updated store together with the
returned config or the raised exception. -/
def putCk (sv : Saver) (pf : BKey → Bool) (cfg : Config) (ck : Checkpoint)
    (meta : Meta) (now : Int) (st : Store) : Store × Except Err Config :=
  match idsFromConfig cfg with
  | Except.error e => (st, Except.error e)
  | Except.ok (tid, ns, parent) =>
    match ck.id with
    | Option.none =>
      (st, Except.error (Err.valErr "checkpoint_id is required for put()"))
    | some cid =>
      if cid = "" then
        (st, Except.error (Err.valErr "checkpoint_id is required for put()"))
      else
        let ts := ck.ts.getD now
        let ckStamped : Checkpoint := { ck with ts := some ts }
        let cpDump := sv.sCk.dumps ckStamped
        let meta2 := metaUpdate meta cfg.metadata
        let metaDump := sv.sMeta.dumps meta2
        let k := keyCp tid ns cid
        if pf (BKey.cp k) then (st, Except.error (Err.backendErr (BKey.cp k)))
        else
          let binsCp : CpBins :=
            { thread_id := tid, checkpoint_ns := ns, checkpoint_id := cid,
              p_checkpoint_id := parent,
              cp_type := some cpDump.1, checkpoint := some cpDump.2,
              meta_type := some metaDump.1, metadata := some metaDump.2,
              ts := ts }
          let st1 : Store := { st with cpRecs := alPut st.cpRecs k binsCp }
          let lk := keyLatest tid ns
          if pf (BKey.meta lk) then
            (st1, Except.error (Err.backendErr (BKey.meta lk)))
          else
            let latestBins : MetaBins :=
              { checkpoint_id := some cid, ts := some ts,
                items := Option.none }
            let st2 : Store :=
              { st1 with metaRecs := alPut st1.metaRecs lk latestBins }
            let tk := keyTimeline tid ns
            let items := readTimelineItems st2 tk
            let items3 := timelineRecord sv.tmax items ts cid
            if pf (BKey.meta tk) then
              (st2, Except.error (Err.backendErr (BKey.meta tk)))
            else
              let tlBins : MetaBins :=
                { checkpoint_id := Option.none, ts := Option.none,
                  items := some (TLVal.parsed
                    (items3.map (fun p => TLItem.pair p.1 p.2))) }
              let st3 : Store :=
                { st2 with metaRecs := alPut st2.metaRecs tk tlBins }
              let newCfg : Config :=
                { cfg with
                  thread_id := some tid
                  checkpoint_ns := some ns
                  checkpoint_id := some cid }
              (st3, Except.ok newCfg)

/-- Decoding of stored write entries inside `get_tuple` (lines 330-339). A
structured entry has all its keys, so the `except KeyError` branch is dead; a
`loads_typed` failure there is uncaught in the source and raises. -/
def decodeWrites (sv : Saver) : List WriteItem →
    Except Err (List (String × String × PyVal))
  | [] => Except.ok []
  | it :: rest =>
    match sv.sVal.loads (it.wtype, it.value) with
    | Option.none => Except.error Err.decodeErr
    | some v =>
      match decodeWrites sv rest with
      | Except.error e => Except.error e
      | Except.ok l => Except.ok ((it.task_id, it.channel, v) :: l)

/-- Python truthiness of an optional parent id (`if bins.get("p_checkpoint_id")`). -/
def parentRef (p : Option String) : Option String :=
  match p with
  | Option.none => Option.none
  | some s => if s = "" then Option.none else some s

/-- The checkpoint id `get_tuple` works with: the config id when one is
present (`if checkpoint_id is None` — an empty string is used as given),
else the `checkpoint_id` bin of the latest pointer record; `Option.none`
when the pointer record or its bin is absent. -/
def resolveId (cidOpt : Option String) (st : Store) (tid ns : String) :
    Option String :=
  match cidOpt with
  | some c => some c
  | Option.none =>
    match alGet st.metaRecs (keyLatest tid ns) with
    | Option.none => Option.none
    | some lb => lb.checkpoint_id

/-- `get_tuple`: resolve the checkpoint id (via the latest pointer when the
config carries none), fetch and decode the checkpoint record, then attach
pending writes. Absent records and decode failures on the checkpoint or
metadata payload yield `Option.none`, not an error. -/
def getTuple (sv : Saver) (cfg : Config) (st : Store) :
    Except Err (Option CkTuple) :=
  match idsFromConfig cfg with
  | Except.error e => Except.error e
  | Except.ok (tid, ns, cidOpt) =>
    match resolveId cidOpt st tid ns with
    | Option.none => Except.ok Option.none
    | some cid =>
      match alGet st.cpRecs (keyCp tid ns cid) with
      | Option.none => Except.ok Option.none
      | some bins =>
        match bins.cp_type, bins.checkpoint with
        | some cpT, some rawCp =>
          match sv.sCk.loads (cpT, rawCp) with
          | Option.none => Except.ok Option.none
          | some ck =>
            match bins.meta_type, bins.metadata with
            | some mT, some rawM =>
              match sv.sMeta.loads (mT, rawM) with
              | Option.none => Except.ok Option.none
              | some meta =>
                let pw : Except Err (List (String × String × PyVal)) :=
                  match alGet st.writeRecs (keyWrites tid ns cid) with
                  | Option.none => Except.ok []
                  | some wb =>
                    match wb.writes with
                    | Option.none => Except.ok []
                    | some (WVal.wlist l) => decodeWrites sv l
                    | some WVal.wbad => Except.error Err.typeErr
                match pw with
                | Except.error e => Except.error e
                | Except.ok pws =>
                  Except.ok (some
                    { thread_id := tid
                      checkpoint_ns := ns
                      checkpoint_id := cid
                      checkpoint := ck
                      metadata := meta
                      parent_id := parentRef bins.p_checkpoint_id
                      pendingWrites := pws })
            | _, _ => Except.ok Option.none
        | _, _ => Except.ok Option.none

/-- The merge step of `put_writes` for one incoming entry: replace the first
existing entry with the same `(task_id, idx)` pair, else append. -/
def mergeOne (existing : List WriteItem) (item : WriteItem) : List WriteItem :=
  match existing.findIdx? (fun it =>
      it.task_id = item.task_id ∧ it.idx = item.idx) with
  | some i => existing.set i item
  | Option.none => existing ++ [item]

/-- The entry built by `put_writes` for the write at position `i`:
`idx_val = WRITES_IDX_MAP.get(channel, idx)`. -/
def mkWriteItem (sv : Saver) (taskId taskPath : String) (now : Int) (i : Nat)
    (w : String × PyVal) : WriteItem :=
  let dump := sv.sVal.dumps w.2
  { task_id := taskId
    task_path := taskPath
    channel := w.1
    idx := (sv.idxMap w.1).getD (Int.ofNat i)
    wtype := dump.1
    value := dump.2
    ts := now }

/-- The full merge loop of `put_writes` (lines 258-280): fold the incoming
entries, in order and with their positional index, into the existing ledger. -/
def mergeWrites (sv : Saver) (existing : List WriteItem)
    (writes : List (String × PyVal)) (taskId taskPath : String) (now : Int) :
    List WriteItem :=
  (writes.enum.map (fun p => mkWriteItem sv taskId taskPath now p.1 p.2)).foldl
    mergeOne existing

/-- `put_writes`: empty write sets return before the config is parsed; a falsy
checkpoint id returns silently; an existing ledger record whose `writes` bin
is missing or not a list makes the merge loop raise `TypeError`
(`existing_items = bins.get("writes")` has no fallback); otherwise the merged
collection is persisted as one record. -/
def putWrites (sv : Saver) (cfg : Config) (writes : List (String × PyVal))
    (taskId : String) (taskPath : String) (now : Int) (st : Store) :
    Store × Except Err Unit :=
  if writes.isEmpty then (st, Except.ok ())
  else
    match idsFromConfig cfg with
    | Except.error e => (st, Except.error e)
    | Except.ok (tid, ns, cidOpt) =>
      if truthy cidOpt then
        let cid := cidOpt.getD ""
        let k := keyWrites tid ns cid
        let existing : Except Err (List WriteItem) :=
          match alGet st.writeRecs k with
          | Option.none => Except.ok []
          | some wb =>
            match wb.writes with
            | some (WVal.wlist l) => Except.ok l
            | _ => Except.error Err.typeErr
        match existing with
        | Except.error e => (st, Except.error e)
        | Except.ok ex =>
          let merged := mergeWrites sv ex writes taskId taskPath now
          let wBins : WritesBins := { writes := some (WVal.wlist merged) }
          ({ st with writeRecs := alPut st.writeRecs k wBins }, Except.ok ())
      else (st, Except.ok ())

/-- The `before` truncation loop of `list` (lines 398-407): keep only the
entries strictly after the first entry whose id matches; if no entry matches,
keep nothing. -/
def truncAfter : List (Int × String) → String → List (Int × String)
  | [], _ => []
  | (_, c) :: rest, b => if c = b then rest else truncAfter rest b

/-- The `if limit is not None and yielded >= limit: break` guard. -/
def limitStop (limit : Option Int) (yielded : Int) : Bool :=
  match limit with
  | Option.none => false
  | some l => yielded ≥ l

/-- The metadata filter of `list` (lines 426-433): `if filter:` skips an empty
dict; otherwise every filter key must compare equal against
`tpl.metadata.get(k)`, where a missing key reads as `None`. -/
def metaGet (m : Meta) (k : String) : PyVal :=
  (alGet m k).getD PyVal.none

/-- Whether a tuple passes the `list` metadata filter. -/
def filterOk (filt : Option Meta) (m : Meta) : Bool :=
  match filt with
  | Option.none => true
  | some f => if f.isEmpty then true
      else f.all (fun kv => decide (metaGet m kv.1 = kv.2))

/-- The config `list` builds for each timeline entry before calling
`get_tuple`. -/
def cfgFor (tid ns cid : String) : Config :=
  { thread_id := some tid
    checkpoint_ns := some ns
    checkpoint_id := some cid }

/-- The yield loop of `list` (lines 409-436): resolve each remaining timeline
entry through `get_tuple`, skip unresolved ones, apply the metadata filter,
count yields against the limit. An exception raised inside `get_tuple`
propagates out of the generator. -/
def collectTuples (sv : Saver) (tid ns : String) (filt : Option Meta)
    (limit : Option Int) (st : Store) :
    List (Int × String) → Int → Except Err (List CkTuple)
  | [], _ => Except.ok []
  | (_, cid) :: rest, yielded =>
    if limitStop limit yielded then Except.ok []
    else
      match getTuple sv (cfgFor tid ns cid) st with
      | Except.error e => Except.error e
      | Except.ok Option.none => collectTuples sv tid ns filt limit st rest yielded
      | Except.ok (some tpl) =>
        if filterOk filt tpl.metadata then
          match collectTuples sv tid ns filt limit st rest (yielded + 1) with
          | Except.error e => Except.error e
          | Except.ok l => Except.ok (tpl :: l)
        else collectTuples sv tid ns filt limit st rest yielded

/-- `list`: read the timeline, truncate at the `before` id when that id is
truthy (`if before_id:`), then yield matching tuples newest first. The lazily
produced generator is modelled by the full finite list of yielded tuples. -/
def listCk (sv : Saver) (cfg : Option Config) (filt : Option Meta)
    (before : Option Config) (limit : Option Int) (st : Store) :
    Except Err (List CkTuple) :=
  match idsFromConfig (cfg.getD {}) with
  | Except.error e => Except.error e
  | Except.ok (tid, ns, _) =>
    let items := readTimelineItems st (keyTimeline tid ns)
    let beforeRes : Except Err (Option String) :=
      match before with
      | Option.none => Except.ok Option.none
      | some b =>
        match idsFromConfig b with
        | Except.error e => Except.error e
        | Except.ok (_, _, bid) => Except.ok bid
    match beforeRes with
    | Except.error e => Except.error e
    | Except.ok beforeId =>
      let items2 :=
        if truthy beforeId then truncAfter items (beforeId.getD "")
        else items
      collectTuples sv tid ns filt limit st items2 0

/-- A sequence of `put` calls on one config: each pair `(ts, cid)` is a
checkpoint carrying its own timestamp. -/
def putMany (sv : Saver) (cfg : Config) (ps : List (Int × String))
    (st : Store) : Store :=
  ps.foldl
    (fun s p =>
      (putCk sv noFail cfg
        { id := some p.2, ts := some p.1, data := PyVal.none } [] 0 s).1)
    st

/-! ### Concrete test fixtures

A computable codec that tags each payload shape and decodes only matching
tags, a small saver built from it, and a handful of concrete configs, stores
and checkpoints used to evaluate the model at specific inputs. -/

/-- Test codec for checkpoint payloads. -/
def tSerCk : Serde Checkpoint :=
  ⟨fun c => ("ck", Blob.ckB c),
   fun p => match p with
     | ("ck", Blob.ckB c) => some c
     | _ => Option.none⟩

/-- Test codec for metadata payloads. -/
def tSerMeta : Serde Meta :=
  ⟨fun m => ("md", Blob.metaB m),
   fun p => match p with
     | ("md", Blob.metaB m) => some m
     | _ => Option.none⟩

/-- Test codec for write values. -/
def tSerVal : Serde PyVal :=
  ⟨fun v => ("v", Blob.valB v),
   fun p => match p with
     | ("v", Blob.valB v) => some v
     | _ => Option.none⟩

/-- A concrete saver: timeline cap 3, one special channel mapped to slot -9. -/
def svT : Saver :=
  { timeline_max := 3
    idxMap := fun ch => if ch = "__special__" then some (-9) else Option.none
    sCk := tSerCk
    sMeta := tSerMeta
    sVal := tSerVal }

/-- A concrete scope config without a checkpoint id. -/
def cfgT : Config := { thread_id := some "t1", checkpoint_ns := some "demo" }

/-- A concrete checkpoint `A` with the newer timestamp 10. -/
def ckA : Checkpoint := { id := some "A", ts := some 10, data := PyVal.int 1 }

/-- A concrete checkpoint `B` carrying an older timestamp 5 than `A`. -/
def ckB : Checkpoint := { id := some "B", ts := some 5, data := PyVal.int 2 }

/-- Ledger bins holding a proper write list. -/
def wlBins (l : List WriteItem) : WritesBins :=
  { writes := some (WVal.wlist l) }

/-- A concrete scope config that carries checkpoint id `A`. -/
def cfgW : Config :=
  { thread_id := some "t1", checkpoint_ns := some "demo",
    checkpoint_id := some "A" }

/-- A store whose ledger record for checkpoint `A` exists and holds an empty
write list. -/
def stW0 : Store :=
  { emptyStore with writeRecs :=
      [(keyWrites "t1" "demo" "A", { writes := some (WVal.wlist []) })] }

/-- A store whose ledger record for checkpoint `A` exists but has no `writes`
bin — the malformed-ledger shape of C8. -/
def stBad : Store :=
  { emptyStore with writeRecs :=
      [(keyWrites "t1" "demo" "A", { writes := Option.none })] }

/-- A store holding five checkpoints `a` … `e` put in order into the cap-3
saver. -/
def stFive : Store :=
  putMany svT cfgT [(1, "a"), (2, "b"), (3, "c"), (4, "d"), (5, "e")] emptyStore

/-- A `before` config pointing at checkpoint id `d`. -/
def cfgBD : Config :=
  { thread_id := some "t1", checkpoint_ns := some "demo",
    checkpoint_id := some "d" }

/-- The tuple `list` yields for checkpoint `c` of `stFive`. -/
def tplD : CkTuple :=
  { thread_id := "t1"
    checkpoint_ns := "demo"
    checkpoint_id := "c"
    checkpoint := { id := some "c", ts := some 3, data := PyVal.none }
    metadata := []
    parent_id := Option.none
    pendingWrites := [] }

/-- A failure-injection predicate that fails only the latest-pointer write of
scope `("t1", "demo")`. -/
def pfLatest : BKey → Bool := fun k => k = BKey.meta (keyLatest "t1" "demo")

/-- A failure-injection predicate that fails only the timeline write of scope
`("t1", "demo")`. -/
def pfTimeline : BKey → Bool := fun k => k = BKey.meta (keyTimeline "t1" "demo")

/-- A store whose ledger record for checkpoint `A` has a truthy non-list
`writes` bin. -/
def stBad2 : Store :=
  { emptyStore with writeRecs :=
      [(keyWrites "t1" "demo" "A", { writes := some WVal.wbad })] }

/-- A concrete checkpoint `c1` whose metadata will be stored empty. -/
def ckC : Checkpoint := { id := some "c1", ts := some 1, data := PyVal.none }

/-- A store holding only checkpoint `c1` with empty metadata. -/
def stC : Store := (putCk svT noFail cfgT ckC [] 0 emptyStore).1

/-- The tuple `list` yields for checkpoint `c1` of `stC`; its metadata is the
empty dict, so it lacks every key. -/
def tplC : CkTuple :=
  { thread_id := "t1"
    checkpoint_ns := "demo"
    checkpoint_id := "c1"
    checkpoint := { id := some "c1", ts := some 1, data := PyVal.none }
    metadata := []
    parent_id := Option.none
    pendingWrites := [] }

/-! ### Infrastructure lemmas -/

theorem alGet_cons {β : Type} (a k : String) (v : β) (l : List (String × β)) :
    alGet ((a, v) :: l) k = if a = k then some v else alGet l k := rfl

theorem alGet_nil {β : Type} (k : String) : alGet ([] : List (String × β)) k = Option.none := rfl

theorem string_append_left_cancel {p a b : String} (h : p ++ a = p ++ b) :
    a = b := by
  have hd := congrArg String.data h
  simp only [String.data_append] at hd
  exact String.ext (List.append_cancel_left hd)

theorem keyLatest_ne_keyTimeline (tid ns : String) :
    keyLatest tid ns ≠ keyTimeline tid ns := by
  intro h
  have hl := congrArg String.length h
  have h1 : ("__latest__" : String).length = 10 := rfl
  have h2 : ("__timeline__" : String).length = 12 := rfl
  simp only [keyLatest, keyTimeline, String.length_append, h1, h2] at hl
  omega

theorem keyCp_inj (tid ns : String) {a b : String}
    (h : keyCp tid ns a = keyCp tid ns b) : a = b := by
  have hab : tid ++ SEP ++ ns ++ SEP ++ a = tid ++ SEP ++ ns ++ SEP ++ b := h
  have h1 : (tid ++ SEP ++ ns ++ SEP) ++ a = (tid ++ SEP ++ ns ++ SEP) ++ b := by
    simpa [String.append_assoc] using hab
  exact string_append_left_cancel h1

theorem cleanItems_map (l : List (Int × String)) :
    cleanItems (l.map (fun p => TLItem.pair p.1 p.2)) = l := by
  induction l with
  | nil => rfl
  | cons a t ih => simp [cleanItems, ih]

/-- Full characterisation of a successful `put` without backend failures:
the checkpoint record is prepended, the latest pointer is unconditionally
overwritten, the timeline record is rewritten through `timelineRecord`, the
writes set is untouched, and the returned config carries the new id. -/
theorem putCk_eq (sv : Saver) (cfg : Config) (ck : Checkpoint) (meta : Meta)
    (now : Int) (st : Store) (tid ns : String) (pc : Option String) (cid : String)
    (hids : idsFromConfig cfg = Except.ok (tid, ns, pc))
    (hid : ck.id = some cid) (hcid : cid ≠ "") :
    putCk sv noFail cfg ck meta now st =
      ({ cpRecs := (keyCp tid ns cid,
           { thread_id := tid
             checkpoint_ns := ns
             checkpoint_id := cid
             p_checkpoint_id := pc
             cp_type := some (sv.sCk.dumps { ck with ts := some (ck.ts.getD now) }).1
             checkpoint := some (sv.sCk.dumps { ck with ts := some (ck.ts.getD now) }).2
             meta_type := some (sv.sMeta.dumps (metaUpdate meta cfg.metadata)).1
             metadata := some (sv.sMeta.dumps (metaUpdate meta cfg.metadata)).2
             ts := ck.ts.getD now }) :: st.cpRecs
         metaRecs := (keyTimeline tid ns,
           { checkpoint_id := Option.none
             ts := Option.none
             items := some (TLVal.parsed ((timelineRecord sv.tmax
               (readTimelineItems st (keyTimeline tid ns)) (ck.ts.getD now) cid).map
               (fun p => TLItem.pair p.1 p.2))) }) ::
           (keyLatest tid ns,
             { checkpoint_id := some cid
               ts := some (ck.ts.getD now)
               items := Option.none }) :: st.metaRecs
         writeRecs := st.writeRecs },
       Except.ok { cfg with
                   thread_id := some tid
                   checkpoint_ns := some ns
                   checkpoint_id := some cid }) := by
  have hk : keyLatest tid ns ≠ keyTimeline tid ns := keyLatest_ne_keyTimeline tid ns
  simp only [putCk, hids, hid, noFail, if_neg hcid, Bool.false_eq_true, if_false,
    alPut, readTimelineItems, alGet_cons, if_neg hk]

/-- C1: for one scope and distinct checkpoint ids `A ≠ B`, `put(S, A)` then
`put(S, B)` then `get_tuple(S)` with no checkpoint id returns checkpoint `B`:
the latest pointer is an unconditional overwrite, with no timestamp
comparison, so the most recently written checkpoint wins even when its
timestamp (`ckB.ts`, unconstrained here, in particular older than `ckA.ts`)
is older. -/
theorem put_put_getTuple_returns_last (sv : Saver) (cfg : Config)
    (ckA ckB : Checkpoint) (mA mB : Meta) (nowA nowB : Int) (st0 : Store)
    (tid ns A B : String)
    (hids : idsFromConfig cfg = Except.ok (tid, ns, Option.none))
    (hA : ckA.id = some A) (hB : ckB.id = some B)
    (hAne : A ≠ "") (hBne : B ≠ "") (hAB : A ≠ B)
    (hrt : sv.sCk.loads (sv.sCk.dumps { ckB with ts := some (ckB.ts.getD nowB) })
           = some { ckB with ts := some (ckB.ts.getD nowB) })
    (hmrt : sv.sMeta.loads (sv.sMeta.dumps (metaUpdate mB cfg.metadata))
           = some (metaUpdate mB cfg.metadata))
    (hw : alGet st0.writeRecs (keyWrites tid ns B) = Option.none) :
    getTuple sv cfg
      (putCk sv noFail cfg ckB mB nowB (putCk sv noFail cfg ckA mA nowA st0).1).1
      = Except.ok (some
          { thread_id := tid
            checkpoint_ns := ns
            checkpoint_id := B
            checkpoint := { ckB with ts := some (ckB.ts.getD nowB) }
            metadata := metaUpdate mB cfg.metadata
            parent_id := Option.none
            pendingWrites := [] }) := by
  have hk2 : ¬ (keyTimeline tid ns = keyLatest tid ns) :=
    fun h => keyLatest_ne_keyTimeline tid ns h.symm
  rw [putCk_eq sv cfg ckA mA nowA st0 tid ns Option.none A hids hA hAne]
  rw [putCk_eq sv cfg ckB mB nowB _ tid ns Option.none B hids hB hBne]
  simp [getTuple, resolveId, hids, alGet_cons, hk2, hrt, hmrt, hw, parentRef]

/-- Witness for C1: two concrete puts — `A` at timestamp 10, then `B` at the
older timestamp 5 — after which the id-less `get_tuple` returns `B`. -/
theorem put_put_getTuple_returns_last_witness :
    getTuple svT cfgT
      (putCk svT noFail cfgT ckB [] 0 (putCk svT noFail cfgT ckA [] 0 emptyStore).1).1
      = Except.ok (some
          { thread_id := "t1"
            checkpoint_ns := "demo"
            checkpoint_id := "B"
            checkpoint := { id := some "B", ts := some 5, data := PyVal.int 2 }
            metadata := []
            parent_id := Option.none
            pendingWrites := [] }) :=
  put_put_getTuple_returns_last svT cfgT ckA ckB [] [] 0 0 emptyStore
    "t1" "demo" "A" "B" rfl rfl rfl (by decide) (by decide) (by decide)
    rfl rfl rfl

theorem filter_ne_of_not_mem (l : List (Int × String)) (c : String)
    (h : c ∉ l.map Prod.snd) : l.filter (fun p => p.2 ≠ c) = l := by
  induction l with
  | nil => rfl
  | cons a t ih =>
    simp only [List.map_cons, List.mem_cons, not_or] at h
    have ha : (decide (a.2 ≠ c)) = true := by
      simp only [decide_eq_true_eq]
      exact fun hc => h.1 hc.symm
    rw [List.filter_cons, if_pos ha, ih h.2]

theorem timelineRecord_length_le (cap : Nat) (l : List (Int × String))
    (ts : Int) (cid : String) : (timelineRecord cap l ts cid).length ≤ cap := by
  unfold timelineRecord
  by_cases h : ((ts, cid) :: l.filter (fun p => p.2 ≠ cid)).length > cap
  · rw [if_pos h]
    rw [List.length_take]
    exact Nat.min_le_left _ _
  · rw [if_neg h]
    omega

theorem timelineRecord_fresh (cap : Nat) (acc : List (Int × String))
    (t : Int) (c : String) (hc : c ∉ acc.map Prod.snd) :
    timelineRecord cap (acc.take cap) t c = ((t, c) :: acc).take cap := by
  have hsub : List.Sublist ((acc.take cap).map Prod.snd) (acc.map Prod.snd) :=
    List.Sublist.map Prod.snd (List.take_sublist cap acc)
  have hc2 : c ∉ (acc.take cap).map Prod.snd := fun hm => hc (hsub.mem hm)
  unfold timelineRecord
  rw [filter_ne_of_not_mem _ _ hc2]
  match cap with
  | 0 => simp
  | Nat.succ n =>
    by_cases h : ((t, c) :: acc.take (n + 1)).length > n + 1
    · rw [if_pos h, List.take_succ_cons, List.take_take, List.take_succ_cons]
      have hmin : min n (n + 1) = n := by omega
      rw [hmin]
    · rw [if_neg h]
      simp only [List.length_cons, List.length_take, gt_iff_lt, not_lt] at h
      have hle : acc.length ≤ n := by omega
      rw [List.take_of_length_le (by omega), List.take_succ_cons,
        List.take_of_length_le hle]

theorem foldl_timelineRecord (cap : Nat) :
    ∀ (todo acc : List (Int × String)),
    (todo.map Prod.snd).Nodup →
    (∀ c ∈ todo.map Prod.snd, c ∉ acc.map Prod.snd) →
    todo.foldl (fun its p => timelineRecord cap its p.1 p.2) (acc.take cap)
      = (todo.reverse ++ acc).take cap
  | [], acc, _, _ => by simp
  | (t, c) :: rest, acc, hnd, hdisj => by
    simp only [List.map_cons, List.nodup_cons] at hnd
    have hc : c ∉ acc.map Prod.snd := hdisj c (by simp)
    have hstep := timelineRecord_fresh cap acc t c hc
    rw [List.foldl_cons, hstep]
    have hdisj2 : ∀ x ∈ rest.map Prod.snd, x ∉ ((t, c) :: acc).map Prod.snd := by
      intro x hx
      simp only [List.map_cons, List.mem_cons, not_or]
      exact ⟨fun hxc => hnd.1 (hxc ▸ hx), hdisj x (by simp [hx])⟩
    have ih := foldl_timelineRecord cap rest ((t, c) :: acc) hnd.2 hdisj2
    rw [ih]
    simp [List.reverse_cons, List.append_assoc]

theorem readTimeline_putCk (sv : Saver) (cfg : Config) (ck : Checkpoint)
    (meta : Meta) (now : Int) (st : Store) (tid ns : String)
    (pc : Option String) (cid : String)
    (hids : idsFromConfig cfg = Except.ok (tid, ns, pc))
    (hid : ck.id = some cid) (hcid : cid ≠ "") :
    readTimelineItems (putCk sv noFail cfg ck meta now st).1 (keyTimeline tid ns)
      = timelineRecord sv.tmax (readTimelineItems st (keyTimeline tid ns))
          (ck.ts.getD now) cid := by
  rw [putCk_eq sv cfg ck meta now st tid ns pc cid hids hid hcid]
  simp [readTimelineItems, alGet_cons, cleanItems_map]

theorem readTimeline_putMany (sv : Saver) (cfg : Config) (tid ns : String)
    (pc : Option String) (hids : idsFromConfig cfg = Except.ok (tid, ns, pc)) :
    ∀ (ps : List (Int × String)) (st : Store),
    (∀ c ∈ ps.map Prod.snd, c ≠ "") →
    readTimelineItems (putMany sv cfg ps st) (keyTimeline tid ns)
      = ps.foldl (fun its p => timelineRecord sv.tmax its p.1 p.2)
          (readTimelineItems st (keyTimeline tid ns))
  | [], st, _ => by simp [putMany]
  | (t, c) :: rest, st, hne => by
    have hc : c ≠ "" := hne c (by simp)
    have hstep := readTimeline_putCk sv cfg
      { id := some c, ts := some t, data := PyVal.none } [] 0 st tid ns pc c
      hids rfl hc
    have ih := readTimeline_putMany sv cfg tid ns pc hids rest
      (putCk sv noFail cfg
        { id := some c, ts := some t, data := PyVal.none } [] 0 st).1
      (fun x hx => hne x (by simp [hx]))
    simp only [putMany, List.foldl_cons] at ih ⊢
    rw [ih, hstep]
    rfl

/-- C2: the timeline never exceeds the configured cap. First conjunct: after
any single `put` (whatever the prior state), the timeline record holds at most
`max 1 timeline_max` entries. Second conjunct: inserting `N > cap` distinct
checkpoint ids into a scope whose timeline is empty leaves exactly `cap`
entries — the `cap` most-recently-inserted pairs, newest first (the oldest
tail entries are dropped). -/
theorem put_timeline_cap_window (sv : Saver) (cfg : Config) (tid ns : String)
    (pc : Option String) (hids : idsFromConfig cfg = Except.ok (tid, ns, pc)) :
    (∀ (ck : Checkpoint) (meta : Meta) (now : Int) (st : Store) (cid : String),
        ck.id = some cid → cid ≠ "" →
        (readTimelineItems (putCk sv noFail cfg ck meta now st).1
          (keyTimeline tid ns)).length ≤ sv.tmax)
  ∧ (∀ (ps : List (Int × String)) (st : Store),
        (ps.map Prod.snd).Nodup → (∀ c ∈ ps.map Prod.snd, c ≠ "") →
        readTimelineItems st (keyTimeline tid ns) = [] →
        sv.tmax < ps.length →
        readTimelineItems (putMany sv cfg ps st) (keyTimeline tid ns)
            = ps.reverse.take sv.tmax
        ∧ (readTimelineItems (putMany sv cfg ps st)
            (keyTimeline tid ns)).length = sv.tmax) := by
  constructor
  · intro ck meta now st cid hid hcid
    rw [readTimeline_putCk sv cfg ck meta now st tid ns pc cid hids hid hcid]
    exact timelineRecord_length_le _ _ _ _
  · intro ps st hnd hne h0 hlen
    have hmain : readTimelineItems (putMany sv cfg ps st) (keyTimeline tid ns)
        = ps.reverse.take sv.tmax := by
      rw [readTimeline_putMany sv cfg tid ns pc hids ps st hne, h0]
      have hfold := foldl_timelineRecord sv.tmax ps [] hnd (by simp)
      simpa using hfold
    refine ⟨hmain, ?_⟩
    rw [hmain, List.length_take, List.length_reverse]
    omega

/-- Witness for C2: inserting five distinct ids into a cap-3 saver leaves the
three most recent, newest first, and a single put keeps the bound. -/
theorem put_timeline_cap_window_witness :
    ((readTimelineItems (putCk svT noFail cfgT ckA [] 0 emptyStore).1
        (keyTimeline "t1" "demo")).length ≤ svT.tmax)
  ∧ readTimelineItems
      (putMany svT cfgT [(1, "a"), (2, "b"), (3, "c"), (4, "d"), (5, "e")]
        emptyStore) (keyTimeline "t1" "demo") = [(5, "e"), (4, "d"), (3, "c")] := by
  have h := put_timeline_cap_window svT cfgT "t1" "demo" Option.none rfl
  refine ⟨h.1 ckA [] 0 emptyStore "A" rfl (by decide), ?_⟩
  have h2 := (h.2 [(1, "a"), (2, "b"), (3, "c"), (4, "d"), (5, "e")] emptyStore
    (by decide) (by decide) rfl (by decide)).1
  rw [h2]
  rfl

theorem timelineRecord_eq_take (cap : Nat) (l : List (Int × String))
    (ts : Int) (c : String) :
    timelineRecord cap l ts c
      = ((ts, c) :: l.filter (fun p => p.2 ≠ c)).take cap := by
  unfold timelineRecord
  by_cases h : ((ts, c) :: l.filter (fun p => p.2 ≠ c)).length > cap
  · rw [if_pos h]
  · rw [if_neg h, List.take_of_length_le (by omega)]

theorem mapSnd_filter_ne (l : List (Int × String)) (c : String) :
    (l.filter (fun p => p.2 ≠ c)).map Prod.snd
      = (l.map Prod.snd).filter (fun x => x ≠ c) := by
  induction l with
  | nil => rfl
  | cons a t ih =>
    by_cases h : a.2 = c
    · simp [List.filter_cons, h]
      simpa using ih
    · simp [List.filter_cons, h]
      simpa using ih

theorem timelineRecord_nodup (cap : Nat) (l : List (Int × String))
    (ts : Int) (c : String) (hnd : (l.map Prod.snd).Nodup) :
    ((timelineRecord cap l ts c).map Prod.snd).Nodup := by
  have hnd2 : (((ts, c) :: l.filter (fun p => p.2 ≠ c)).map Prod.snd).Nodup := by
    simp only [List.map_cons, mapSnd_filter_ne, List.nodup_cons]
    refine ⟨by simp, List.Nodup.filter _ hnd⟩
  rw [timelineRecord_eq_take]
  exact List.Nodup.sublist
    (List.Sublist.map Prod.snd (List.take_sublist _ _)) hnd2

/-- C3: re-putting a checkpoint id that is already in the timeline does not
duplicate it. After any successful `put` of id `cid` the new timeline is the
old one with any `cid` entry removed, the new `(ts, cid)` entry at the head,
truncated at the cap; in particular the id list stays duplicate-free and
`cid` sits at the head. -/
theorem put_timeline_dedup_head (sv : Saver) (cfg : Config) (ck : Checkpoint)
    (meta : Meta) (now : Int) (st : Store) (tid ns : String)
    (pc : Option String) (cid : String)
    (hids : idsFromConfig cfg = Except.ok (tid, ns, pc))
    (hid : ck.id = some cid) (hcid : cid ≠ "")
    (hnd : ((readTimelineItems st (keyTimeline tid ns)).map Prod.snd).Nodup) :
    readTimelineItems (putCk sv noFail cfg ck meta now st).1 (keyTimeline tid ns)
        = ((ck.ts.getD now, cid) ::
            (readTimelineItems st (keyTimeline tid ns)).filter
              (fun p => p.2 ≠ cid)).take sv.tmax
    ∧ (((readTimelineItems (putCk sv noFail cfg ck meta now st).1
          (keyTimeline tid ns)).map Prod.snd).Nodup)
    ∧ (readTimelineItems (putCk sv noFail cfg ck meta now st).1
          (keyTimeline tid ns)).head? = some (ck.ts.getD now, cid) := by
  have hrw := readTimeline_putCk sv cfg ck meta now st tid ns pc cid hids hid hcid
  obtain ⟨n, hn⟩ : ∃ n, sv.tmax = n + 1 :=
    ⟨sv.tmax - 1, by unfold Saver.tmax; omega⟩
  refine ⟨by rw [hrw, timelineRecord_eq_take], ?_, ?_⟩
  · rw [hrw]
    exact timelineRecord_nodup _ _ _ _ hnd
  · rw [hrw, timelineRecord_eq_take, hn, List.take_succ_cons]
    rfl

/-- Witness for C3: re-inserting id `c` into the timeline `[e, d, c]` yields
`[c, e, d]` — moved to the head, no duplicate, still three entries. -/
theorem put_timeline_dedup_head_witness :
    readTimelineItems
        (putCk svT noFail cfgT
          { id := some "c", ts := some 6, data := PyVal.none } [] 0
          (putMany svT cfgT [(1, "a"), (2, "b"), (3, "c"), (4, "d"), (5, "e")]
            emptyStore)).1
        (keyTimeline "t1" "demo") = [(6, "c"), (5, "e"), (4, "d")] := by
  have h5 : readTimelineItems
      (putMany svT cfgT [(1, "a"), (2, "b"), (3, "c"), (4, "d"), (5, "e")]
        emptyStore) (keyTimeline "t1" "demo") = [(5, "e"), (4, "d"), (3, "c")] :=
    put_timeline_cap_window_witness.2
  have h := (put_timeline_dedup_head svT cfgT
    { id := some "c", ts := some 6, data := PyVal.none } [] 0
    (putMany svT cfgT [(1, "a"), (2, "b"), (3, "c"), (4, "d"), (5, "e")]
      emptyStore) "t1" "demo" Option.none "c" rfl rfl (by decide)
    (by rw [h5]; decide)).1
  rw [h, h5]
  rfl

theorem findIdxAppend (p : WriteItem → Bool) (item1 : WriteItem) :
    ∀ (ex : List WriteItem) (i : Nat), (∀ it ∈ ex, p it = false) →
    p item1 = true →
    List.findIdx? p (ex ++ [item1]) i = some (i + ex.length)
  | [], i, _, h1 => by simp [List.findIdx?_cons, h1]
  | a :: ex, i, hex, h1 => by
    have ha : p a = false := hex a (by simp)
    rw [List.cons_append, List.findIdx?_cons, if_neg (by simp [ha])]
    rw [findIdxAppend p item1 ex (i + 1)
      (fun it hit => hex it (by simp [hit])) h1]
    congr 1
    simp only [List.length_cons]
    omega

theorem setAppend (item1 item2 : WriteItem) :
    ∀ ex : List WriteItem, (ex ++ [item1]).set ex.length item2 = ex ++ [item2]
  | [] => rfl
  | a :: ex => by
    simp only [List.cons_append, List.length_cons, List.set_cons_succ]
    rw [setAppend item1 item2 ex]

theorem mergeOne_fresh (ex : List WriteItem) (item : WriteItem)
    (h : ∀ it ∈ ex, ¬(it.task_id = item.task_id ∧ it.idx = item.idx)) :
    mergeOne ex item = ex ++ [item] := by
  have hn : List.findIdx?
      (fun it => decide (it.task_id = item.task_id ∧ it.idx = item.idx)) ex
      = Option.none :=
    List.findIdx?_eq_none_iff.2 (fun it hit => decide_eq_false (h it hit))
  unfold mergeOne
  rw [hn]

theorem mergeOne_replace (ex : List WriteItem) (item1 item2 : WriteItem)
    (hex : ∀ it ∈ ex, ¬(it.task_id = item2.task_id ∧ it.idx = item2.idx))
    (hmatch : item1.task_id = item2.task_id ∧ item1.idx = item2.idx) :
    mergeOne (ex ++ [item1]) item2 = ex ++ [item2] := by
  unfold mergeOne
  rw [findIdxAppend _ item1 ex 0
    (fun it hit => decide_eq_false (hex it hit)) (decide_eq_true hmatch)]
  simp only [Nat.zero_add]
  exact setAppend item1 item2 ex

theorem mergeWrites_single (sv : Saver) (ex : List WriteItem)
    (ch : String) (v : PyVal) (taskId taskPath : String) (now : Int) :
    mergeWrites sv ex [(ch, v)] taskId taskPath now
      = mergeOne ex (mkWriteItem sv taskId taskPath now 0 (ch, v)) := rfl

theorem putWrites_eq (sv : Saver) (cfg : Config)
    (w : String × PyVal) (ws : List (String × PyVal))
    (taskId taskPath : String) (now : Int) (st : Store)
    (tid ns cid : String) (ex : List WriteItem)
    (hids : idsFromConfig cfg = Except.ok (tid, ns, some cid)) (hcid : cid ≠ "")
    (hex : alGet st.writeRecs (keyWrites tid ns cid) = some (wlBins ex)) :
    putWrites sv cfg (w :: ws) taskId taskPath now st
      = ({ st with writeRecs := alPut st.writeRecs (keyWrites tid ns cid) (wlBins (mergeWrites sv ex (w :: ws) taskId taskPath now)) },
         Except.ok ()) := by
  have ht : truthy (some cid) = true := by simp [truthy, hcid]
  simp only [putWrites, List.isEmpty_cons, hids, ht, if_true, hex,
    Option.getD_some, Bool.false_eq_true, if_false, wlBins]

/-- C4: merge semantics of `put_writes`. With an existing ledger `ex` free of
the pair `(t, idx(ch))`: (1) a first call appends one entry for that pair;
(2) a second call with the same task and channel and a different value leaves
exactly one entry for the pair, holding the second value, with `ex`
undisturbed; (3) a further call whose `(task id, ordering index)` pair is new
appends without disturbing the existing entries; (4) the ordering index of an
entry at position `i` is the special-channel table value when the channel is
in the table, else `i` — shown on a two-element write set. -/
theorem put_writes_replace_and_append (sv : Saver) (cfg : Config) (st0 : Store)
    (tid ns cid : String) (t t2 tp : String) (ch ch2 chA chB : String)
    (v1 v2 v3 vA vB : PyVal) (n1 n2 n3 n4 : Int) (ex : List WriteItem)
    (hids : idsFromConfig cfg = Except.ok (tid, ns, some cid)) (hcid : cid ≠ "")
    (hex : alGet st0.writeRecs (keyWrites tid ns cid) = some (wlBins ex))
    (hfresh : ∀ it ∈ ex, ¬(it.task_id = t ∧ it.idx = (sv.idxMap ch).getD 0)) :
    alGet (putWrites sv cfg [(ch, v1)] t tp n1 st0).1.writeRecs
        (keyWrites tid ns cid)
      = some (wlBins (ex ++ [mkWriteItem sv t tp n1 0 (ch, v1)]))
  ∧ alGet (putWrites sv cfg [(ch, v2)] t tp n2
        (putWrites sv cfg [(ch, v1)] t tp n1 st0).1).1.writeRecs
        (keyWrites tid ns cid)
      = some (wlBins (ex ++ [mkWriteItem sv t tp n2 0 (ch, v2)]))
  ∧ ((¬(t2 = t ∧ (sv.idxMap ch2).getD 0 = (sv.idxMap ch).getD 0)) →
      (∀ it ∈ ex, ¬(it.task_id = t2 ∧ it.idx = (sv.idxMap ch2).getD 0)) →
      alGet (putWrites sv cfg [(ch2, v3)] t2 tp n3
          (putWrites sv cfg [(ch, v2)] t tp n2
            (putWrites sv cfg [(ch, v1)] t tp n1 st0).1).1).1.writeRecs
          (keyWrites tid ns cid)
        = some (wlBins ((ex ++ [mkWriteItem sv t tp n2 0 (ch, v2)])
              ++ [mkWriteItem sv t2 tp n3 0 (ch2, v3)])))
  ∧ ((mkWriteItem sv t tp n4 0 (chA, vA)).idx = (sv.idxMap chA).getD 0
      ∧ (mkWriteItem sv t tp n4 1 (chB, vB)).idx = (sv.idxMap chB).getD 1
      ∧ (¬((sv.idxMap chB).getD 1 = (sv.idxMap chA).getD 0) →
          mergeWrites sv [] [(chA, vA), (chB, vB)] t tp n4
            = [mkWriteItem sv t tp n4 0 (chA, vA),
               mkWriteItem sv t tp n4 1 (chB, vB)])) := by
  have h1 := putWrites_eq sv cfg (ch, v1) [] t tp n1 st0 tid ns cid ex hids hcid hex
  have hm1 : mergeWrites sv ex [(ch, v1)] t tp n1
      = ex ++ [mkWriteItem sv t tp n1 0 (ch, v1)] := by
    rw [mergeWrites_single]
    exact mergeOne_fresh ex _ hfresh
  have hal1 : alGet (putWrites sv cfg [(ch, v1)] t tp n1 st0).1.writeRecs
      (keyWrites tid ns cid)
      = some (wlBins (ex ++ [mkWriteItem sv t tp n1 0 (ch, v1)])) := by
    rw [h1]
    simp [alPut, alGet_cons, hm1]
  have h2 := putWrites_eq sv cfg (ch, v2) [] t tp n2
    (putWrites sv cfg [(ch, v1)] t tp n1 st0).1 tid ns cid
    (ex ++ [mkWriteItem sv t tp n1 0 (ch, v1)]) hids hcid hal1
  have hm2 : mergeWrites sv (ex ++ [mkWriteItem sv t tp n1 0 (ch, v1)])
      [(ch, v2)] t tp n2
      = ex ++ [mkWriteItem sv t tp n2 0 (ch, v2)] := by
    rw [mergeWrites_single]
    exact mergeOne_replace ex _ _ hfresh ⟨rfl, rfl⟩
  have hal2 : alGet (putWrites sv cfg [(ch, v2)] t tp n2
      (putWrites sv cfg [(ch, v1)] t tp n1 st0).1).1.writeRecs
      (keyWrites tid ns cid)
      = some (wlBins (ex ++ [mkWriteItem sv t tp n2 0 (ch, v2)])) := by
    rw [h2]
    simp [alPut, alGet_cons, hm2]
  refine ⟨hal1, hal2, ?_, rfl, rfl, ?_⟩
  · intro hdiff hfresh2
    have h3 := putWrites_eq sv cfg (ch2, v3) [] t2 tp n3
      (putWrites sv cfg [(ch, v2)] t tp n2
        (putWrites sv cfg [(ch, v1)] t tp n1 st0).1).1 tid ns cid
      (ex ++ [mkWriteItem sv t tp n2 0 (ch, v2)]) hids hcid hal2
    have hfresh3 : ∀ it ∈ ex ++ [mkWriteItem sv t tp n2 0 (ch, v2)],
        ¬(it.task_id = t2 ∧ it.idx = (sv.idxMap ch2).getD 0) := by
      intro it hit
      rcases List.mem_append.1 hit with hin | hone
      · exact hfresh2 it hin
      · have hit2 : it = mkWriteItem sv t tp n2 0 (ch, v2) := by
          simpa using hone
        subst hit2
        intro hpair
        exact hdiff ⟨hpair.1.symm, hpair.2.symm⟩
    have hm3 : mergeWrites sv (ex ++ [mkWriteItem sv t tp n2 0 (ch, v2)])
        [(ch2, v3)] t2 tp n3
        = (ex ++ [mkWriteItem sv t tp n2 0 (ch, v2)])
            ++ [mkWriteItem sv t2 tp n3 0 (ch2, v3)] := by
      rw [mergeWrites_single]
      exact mergeOne_fresh _ _ hfresh3
    rw [h3]
    simp [alPut, alGet_cons, hm3]
  · intro hAB
    have hstep1 : mergeOne [] (mkWriteItem sv t tp n4 0 (chA, vA))
        = [mkWriteItem sv t tp n4 0 (chA, vA)] :=
      mergeOne_fresh [] _ (by intro it hit; simp at hit)
    have hstep2 : mergeOne [mkWriteItem sv t tp n4 0 (chA, vA)]
        (mkWriteItem sv t tp n4 1 (chB, vB))
        = [mkWriteItem sv t tp n4 0 (chA, vA),
           mkWriteItem sv t tp n4 1 (chB, vB)] := by
      have := mergeOne_fresh [mkWriteItem sv t tp n4 0 (chA, vA)]
        (mkWriteItem sv t tp n4 1 (chB, vB)) ?_
      · simpa using this
      · intro it hit
        have hit2 : it = mkWriteItem sv t tp n4 0 (chA, vA) := by simpa using hit
        subst hit2
        intro hpair
        exact hAB hpair.2.symm
    show (([(chA, vA), (chB, vB)].enum.map
        (fun p => mkWriteItem sv t tp n4 p.1 p.2)).foldl mergeOne []) = _
    simp only [List.enum, List.enumFrom, List.map_cons, List.map_nil,
      List.foldl_cons, List.foldl_nil]
    rw [hstep1, hstep2]

/-- Witness for C4: concrete two-call replace on channel `chan`, a third call
with a fresh task id appending, and the positional/special index rule at the
concrete saver table. -/
theorem put_writes_replace_and_append_witness :
    alGet (putWrites svT cfgW [("chan", PyVal.int 2)] "task" "" 101
        (putWrites svT cfgW [("chan", PyVal.int 1)] "task" "" 100 stW0).1).1.writeRecs
        (keyWrites "t1" "demo" "A")
      = some (wlBins [mkWriteItem svT "task" "" 101 0 ("chan", PyVal.int 2)]) :=
  (put_writes_replace_and_append svT cfgW stW0 "t1" "demo" "A" "task" "task2" ""
    "chan" "chan2" "cA" "cB" (PyVal.int 1) (PyVal.int 2) (PyVal.int 3)
    (PyVal.int 4) (PyVal.int 5) 100 101 102 103 []
    rfl (by decide) rfl (by intro it hit; simp at hit)).2.1

theorem idsFromConfig_cfgFor (tid ns cid : String) (h : tid ≠ "") :
    idsFromConfig (cfgFor tid ns cid) = Except.ok (tid, ns, some cid) := by
  by_cases hns : ns = ""
  · subst hns
    simp [idsFromConfig, cfgFor, pyOr, truthy, h]
  · simp [idsFromConfig, cfgFor, pyOr, truthy, h, hns]

theorem getTuple_cid (sv : Saver) (tid ns cid : String) (st : Store)
    (tpl : CkTuple)
    (h : getTuple sv (cfgFor tid ns cid) st = Except.ok (some tpl)) :
    tpl.checkpoint_id = cid := by
  by_cases htid : tid = ""
  · subst htid
    simp [getTuple, idsFromConfig, cfgFor, pyOr, truthy] at h
  · rw [getTuple, idsFromConfig_cfgFor tid ns cid htid] at h
    simp only [resolveId] at h
    repeat' split at h
    all_goals simp only [Except.ok.injEq, Option.some.injEq,
      reduceCtorEq] at h
    subst h
    rfl

theorem collectTuples_sub (sv : Saver) (tid ns : String) (filt : Option Meta)
    (limit : Option Int) (st : Store) :
    ∀ (l : List (Int × String)) (y : Int) (tl : List CkTuple),
    collectTuples sv tid ns filt limit st l y = Except.ok tl →
    ∀ tpl ∈ tl, tpl.checkpoint_id ∈ l.map Prod.snd
  | [], _, tl, h, tpl, htpl => by
    simp only [collectTuples, Except.ok.injEq] at h
    subst h
    simp at htpl
  | (ts, cid) :: rest, y, tl, h, tpl, htpl => by
    unfold collectTuples at h
    by_cases hl : limitStop limit y = true
    · rw [if_pos hl] at h
      simp only [Except.ok.injEq] at h
      subst h
      simp at htpl
    · rw [if_neg hl] at h
      cases hg : getTuple sv (cfgFor tid ns cid) st with
      | error e => rw [hg] at h; exact absurd h (by simp)
      | ok o =>
        rw [hg] at h
        cases o with
        | none =>
          simp only [] at h
          have := collectTuples_sub sv tid ns filt limit st rest y tl h tpl htpl
          simp [this]
        | some tpl2 =>
          simp only [] at h
          by_cases hf : filterOk filt tpl2.metadata = true
          · rw [if_pos hf] at h
            cases hrec : collectTuples sv tid ns filt limit st rest (y + 1) with
            | error e => rw [hrec] at h; exact absurd h (by simp)
            | ok l2 =>
              rw [hrec] at h
              simp only [Except.ok.injEq] at h
              subst h
              rcases List.mem_cons.1 htpl with hhd | htl2
              · subst hhd
                have := getTuple_cid sv tid ns cid st tpl hg
                simp [this]
              · have := collectTuples_sub sv tid ns filt limit st rest (y + 1)
                  l2 hrec tpl htl2
                simp [this]
          · rw [if_neg hf] at h
            have := collectTuples_sub sv tid ns filt limit st rest y tl h tpl htpl
            simp [this]

theorem truncAfter_eq_drop :
    ∀ (items : List (Int × String)) (X : String),
    truncAfter items X = items.drop ((items.map Prod.snd).indexOf X + 1)
  | [], X => rfl
  | (t, c) :: rest, X => by
    unfold truncAfter
    by_cases h : c = X
    · rw [if_pos h]
      simp [List.indexOf_cons, h]
    · rw [if_neg h]
      rw [truncAfter_eq_drop rest X]
      simp [List.indexOf_cons, h]

theorem truncAfter_nil_of_not_mem :
    ∀ (items : List (Int × String)) (X : String),
    X ∉ items.map Prod.snd → truncAfter items X = []
  | [], _, _ => rfl
  | (t, c) :: rest, X, h => by
    simp only [List.map_cons, List.mem_cons, not_or] at h
    unfold truncAfter
    rw [if_neg (fun hc => h.1 hc.symm)]
    exact truncAfter_nil_of_not_mem rest X h.2

theorem not_mem_drop_indexOf (X : String) :
    ∀ l : List String, l.Nodup → X ∉ l.drop (l.indexOf X + 1)
  | [], _ => by simp
  | a :: t, hnd => by
    simp only [List.nodup_cons] at hnd
    by_cases h : a = X
    · subst h
      simp only [List.indexOf_cons_self, List.drop_succ_cons, List.drop_zero]
      exact hnd.1
    · rw [List.indexOf_cons_ne _ (by simpa using h), List.drop_succ_cons]
      exact not_mem_drop_indexOf X t hnd.2

/-- C5: `list(S, before = X)` with a truthy id `X` never yields `X` itself
(given the duplicate-free timeline that `put` maintains), yields only ids
that sit strictly after the position of `X` in the newest-first timeline,
and yields nothing at all when `X` does not occur in the timeline. -/
theorem list_before_strictly_after (sv : Saver) (cfg b : Config)
    (filt : Option Meta) (limit : Option Int) (st : Store)
    (tid ns tidB nsB X : String) (pc : Option String) (tl : List CkTuple)
    (hids : idsFromConfig cfg = Except.ok (tid, ns, pc))
    (hb : idsFromConfig b = Except.ok (tidB, nsB, some X))
    (hX : X ≠ "")
    (hnd : ((readTimelineItems st (keyTimeline tid ns)).map Prod.snd).Nodup)
    (h : listCk sv (some cfg) filt (some b) limit st = Except.ok tl) :
    (∀ tpl ∈ tl, tpl.checkpoint_id ∈
        ((readTimelineItems st (keyTimeline tid ns)).drop
          (((readTimelineItems st (keyTimeline tid ns)).map Prod.snd).indexOf X
            + 1)).map Prod.snd)
  ∧ (∀ tpl ∈ tl, tpl.checkpoint_id ≠ X)
  ∧ (X ∉ (readTimelineItems st (keyTimeline tid ns)).map Prod.snd → tl = []) := by
  have ht : truthy (some X) = true := by simp [truthy, hX]
  rw [listCk] at h
  simp only [Option.getD_some, hids, hb, ht, if_true] at h
  have hsub := collectTuples_sub sv tid ns filt limit st
    (truncAfter (readTimelineItems st (keyTimeline tid ns)) X) 0 tl h
  have hdropEq := truncAfter_eq_drop (readTimelineItems st (keyTimeline tid ns)) X
  refine ⟨?_, ?_, ?_⟩
  · intro tpl htpl
    have := hsub tpl htpl
    rwa [hdropEq] at this
  · intro tpl htpl hXeq
    have hmem := hsub tpl htpl
    rw [hdropEq] at hmem
    rw [hXeq] at hmem
    have hX2 : X ∈ ((readTimelineItems st (keyTimeline tid ns)).map Prod.snd).drop
        (((readTimelineItems st (keyTimeline tid ns)).map Prod.snd).indexOf X + 1) := by
      rw [List.map_drop] at hmem
      exact hmem
    exact not_mem_drop_indexOf X _ hnd hX2
  · intro hnm
    rw [truncAfter_nil_of_not_mem _ _ hnm] at h
    simp only [collectTuples, Except.ok.injEq] at h
    exact h.symm

/-- Witness for C5: on the concrete cap-3 store holding `[e, d, c]`,
`list(before = d)` yields exactly the tuple for `c`, which is not `d`. -/
theorem list_before_strictly_after_witness :
    listCk svT (some cfgT) Option.none (some cfgBD) Option.none stFive
        = Except.ok [tplD]
    ∧ tplD.checkpoint_id ≠ "d" := by
  have hrun : listCk svT (some cfgT) Option.none (some cfgBD) Option.none stFive
      = Except.ok [tplD] := by decide
  refine ⟨hrun, ?_⟩
  exact (list_before_strictly_after svT cfgT cfgBD Option.none Option.none
    stFive "t1" "demo" "t1" "demo" "d" Option.none [tplD]
    rfl rfl (by decide) (by decide) hrun).2.1 tplD (by simp)

/-- C6: each "absent" case of `get_tuple` returns a normal empty result
(`Except.ok Option.none`), never an error: (1) no checkpoint id in the config
and no latest pointer record; (2) a pointer record without a `checkpoint_id`
bin; (3) the resolved checkpoint record absent; (4) the checkpoint payload
present but failing to decode; (5) the metadata payload present but failing
to decode. -/
theorem getTuple_absent_cases_ok_none (sv : Saver) (cfg : Config) (st : Store)
    (tid ns : String) (pc : Option String)
    (hids : idsFromConfig cfg = Except.ok (tid, ns, pc)) :
    (pc = Option.none → alGet st.metaRecs (keyLatest tid ns) = Option.none →
        getTuple sv cfg st = Except.ok Option.none)
  ∧ (pc = Option.none → ∀ lb, alGet st.metaRecs (keyLatest tid ns) = some lb →
        lb.checkpoint_id = Option.none →
        getTuple sv cfg st = Except.ok Option.none)
  ∧ (∀ cid, resolveId pc st tid ns = some cid →
        alGet st.cpRecs (keyCp tid ns cid) = Option.none →
        getTuple sv cfg st = Except.ok Option.none)
  ∧ (∀ cid bins cpT rawCp, resolveId pc st tid ns = some cid →
        alGet st.cpRecs (keyCp tid ns cid) = some bins →
        bins.cp_type = some cpT → bins.checkpoint = some rawCp →
        sv.sCk.loads (cpT, rawCp) = Option.none →
        getTuple sv cfg st = Except.ok Option.none)
  ∧ (∀ cid bins cpT rawCp ck mT rawM, resolveId pc st tid ns = some cid →
        alGet st.cpRecs (keyCp tid ns cid) = some bins →
        bins.cp_type = some cpT → bins.checkpoint = some rawCp →
        sv.sCk.loads (cpT, rawCp) = some ck →
        bins.meta_type = some mT → bins.metadata = some rawM →
        sv.sMeta.loads (mT, rawM) = Option.none →
        getTuple sv cfg st = Except.ok Option.none) := by
  refine ⟨?_, ?_, ?_, ?_, ?_⟩
  · intro hpc hlat
    subst hpc
    simp [getTuple, hids, resolveId, hlat]
  · intro hpc lb hlat hbin
    subst hpc
    simp [getTuple, hids, resolveId, hlat, hbin]
  · intro cid hres habs
    simp [getTuple, hids, hres, habs]
  · intro cid bins cpT rawCp hres hbins hty hraw hdec
    simp [getTuple, hids, hres, hbins, hty, hraw, hdec]
  · intro cid bins cpT rawCp ck mT rawM hres hbins hty hraw hdec hmty hmraw hmdec
    simp [getTuple, hids, hres, hbins, hty, hraw, hdec, hmty, hmraw, hmdec]

/-- Witness for C6: concrete stores exercising all five absent cases — an
empty store, a pointer record without an id bin, a dangling pointer, a
checkpoint record whose payload bytes have a wrong type tag, and one whose
metadata bytes have a wrong type tag. -/
theorem getTuple_absent_cases_ok_none_witness :
    getTuple svT cfgT emptyStore = Except.ok Option.none
  ∧ getTuple svT cfgT
      { emptyStore with metaRecs := [(keyLatest "t1" "demo",
          { checkpoint_id := Option.none, ts := some 1,
            items := Option.none })] } = Except.ok Option.none
  ∧ getTuple svT cfgT
      { emptyStore with metaRecs := [(keyLatest "t1" "demo",
          { checkpoint_id := some "gone", ts := some 1,
            items := Option.none })] } = Except.ok Option.none
  ∧ getTuple svT cfgW
      { emptyStore with cpRecs := [(keyCp "t1" "demo" "A",
          { thread_id := "t1", checkpoint_ns := "demo", checkpoint_id := "A",
            p_checkpoint_id := Option.none, cp_type := some "junk",
            checkpoint := some (Blob.rawB "junk"), meta_type := some "md",
            metadata := some (Blob.metaB []), ts := 1 })] }
      = Except.ok Option.none
  ∧ getTuple svT cfgW
      { emptyStore with cpRecs := [(keyCp "t1" "demo" "A",
          { thread_id := "t1", checkpoint_ns := "demo", checkpoint_id := "A",
            p_checkpoint_id := Option.none, cp_type := some "ck",
            checkpoint := some (Blob.ckB ckA), meta_type := some "junk",
            metadata := some (Blob.rawB "junk"), ts := 1 })] }
      = Except.ok Option.none := by
  refine ⟨?_, ?_, ?_, ?_, ?_⟩
  · exact (getTuple_absent_cases_ok_none svT cfgT emptyStore "t1" "demo"
      Option.none rfl).1 rfl rfl
  · exact (getTuple_absent_cases_ok_none svT cfgT _ "t1" "demo"
      Option.none rfl).2.1 rfl _ rfl rfl
  · exact (getTuple_absent_cases_ok_none svT cfgT _ "t1" "demo"
      Option.none rfl).2.2.1 "gone" rfl rfl
  · exact (getTuple_absent_cases_ok_none svT cfgW _ "t1" "demo"
      (some "A") rfl).2.2.2.1 "A" _ "junk" (Blob.rawB "junk") rfl rfl rfl rfl rfl
  · exact (getTuple_absent_cases_ok_none svT cfgW _ "t1" "demo"
      (some "A") rfl).2.2.2.2 "A" _ "ck" (Blob.ckB ckA) ckA "junk"
      (Blob.rawB "junk") rfl rfl rfl rfl rfl rfl rfl rfl

/-- C7 counterexample: the claim "put does not throw on a step 2/3 failure
once step 1 has succeeded" is false at this concrete input — with a backend
failing only the latest-pointer write, `put` raises the wrapped backend error
(`RuntimeError` in the source) even though step 1 succeeded and the
checkpoint record is durably stored. -/
theorem put_step2_failure_counterexample :
    (putCk svT pfLatest cfgT ckA [] 0 emptyStore).2
        = Except.error (Err.backendErr (BKey.meta (keyLatest "t1" "demo")))
    ∧ alGet (putCk svT pfLatest cfgT ckA [] 0 emptyStore).1.cpRecs
        (keyCp "t1" "demo" "A") ≠ Option.none := by
  decide

/-- C7 amended: when step 1 (checkpoint record) succeeds and step 2
(latest pointer) or step 3 (timeline) fails with a backend error, `put`
propagates that error as a raised exception — it does not swallow it and does
not return normally — while the checkpoint record (and, for a step-3 failure,
the updated pointer) remains durably stored, so the partial success is
observable in the store. -/
theorem put_partial_failure_raises (sv : Saver) (pf : BKey → Bool)
    (cfg : Config) (ck : Checkpoint) (meta : Meta) (now : Int) (st : Store)
    (tid ns : String) (pc : Option String) (cid : String)
    (hids : idsFromConfig cfg = Except.ok (tid, ns, pc))
    (hid : ck.id = some cid) (hcid : cid ≠ "")
    (h1 : pf (BKey.cp (keyCp tid ns cid)) = false) :
    (pf (BKey.meta (keyLatest tid ns)) = true →
      (putCk sv pf cfg ck meta now st).2
          = Except.error (Err.backendErr (BKey.meta (keyLatest tid ns)))
      ∧ alGet (putCk sv pf cfg ck meta now st).1.cpRecs (keyCp tid ns cid)
          ≠ Option.none)
  ∧ (pf (BKey.meta (keyLatest tid ns)) = false →
     pf (BKey.meta (keyTimeline tid ns)) = true →
      (putCk sv pf cfg ck meta now st).2
          = Except.error (Err.backendErr (BKey.meta (keyTimeline tid ns)))
      ∧ alGet (putCk sv pf cfg ck meta now st).1.cpRecs (keyCp tid ns cid)
          ≠ Option.none
      ∧ alGet (putCk sv pf cfg ck meta now st).1.metaRecs (keyLatest tid ns)
          ≠ Option.none) := by
  constructor
  · intro h2
    simp [putCk, hids, hid, hcid, h1, h2, alPut, alGet_cons]
  · intro h2 h3
    simp [putCk, hids, hid, hcid, h1, h2, h3, alPut, alGet_cons]

/-- Witness for the amended C7: the two concrete failure injections. -/
theorem put_partial_failure_raises_witness :
    ((putCk svT pfLatest cfgT ckA [] 0 emptyStore).2
        = Except.error (Err.backendErr (BKey.meta (keyLatest "t1" "demo")))
      ∧ alGet (putCk svT pfLatest cfgT ckA [] 0 emptyStore).1.cpRecs
          (keyCp "t1" "demo" "A") ≠ Option.none)
  ∧ ((putCk svT pfTimeline cfgT ckA [] 0 emptyStore).2
        = Except.error (Err.backendErr (BKey.meta (keyTimeline "t1" "demo")))
      ∧ alGet (putCk svT pfTimeline cfgT ckA [] 0 emptyStore).1.cpRecs
          (keyCp "t1" "demo" "A") ≠ Option.none
      ∧ alGet (putCk svT pfTimeline cfgT ckA [] 0 emptyStore).1.metaRecs
          (keyLatest "t1" "demo") ≠ Option.none) := by
  constructor
  · exact (put_partial_failure_raises svT pfLatest cfgT ckA [] 0 emptyStore
      "t1" "demo" Option.none "A" rfl rfl (by decide) (by decide)).1 (by decide)
  · exact (put_partial_failure_raises svT pfTimeline cfgT ckA [] 0 emptyStore
      "t1" "demo" Option.none "A" rfl rfl (by decide) (by decide)).2
      (by decide) (by decide)

/-- C8: the code contradicts the malformed-ledger-as-empty policy. An absent
ledger record is treated as empty and the call completes (first conjunct),
but a ledger record that exists with a missing `writes` bin, or with a truthy
non-list `writes` value, makes the non-empty `put_writes` raise `TypeError`
(`existing_items = bins.get("writes")` has no fallback before the merge loop
iterates it). -/
theorem put_writes_malformed_ledger_raises :
    (putWrites svT cfgW [("chan", PyVal.int 1)] "task" "" 100 emptyStore).2
        = Except.ok ()
    ∧ (putWrites svT cfgW [("chan", PyVal.int 1)] "task" "" 100 stBad).2
        = Except.error Err.typeErr
    ∧ (putWrites svT cfgW [("chan", PyVal.int 1)] "task" "" 100 stBad2).2
        = Except.error Err.typeErr := by
  decide

/-- C9 counterexample: the claim "a checkpoint missing a filtered key is
excluded regardless of the filter's value at that key" is false — with filter
`{"k": None}`, checkpoint `c1`, whose metadata is empty and so lacks `"k"`,
is yielded, because `metadata.get("k")` reads the missing key as `None`,
which compares equal to the filter value. -/
theorem list_filter_none_counterexample :
    listCk svT (some cfgT) (some [("k", PyVal.none)]) Option.none Option.none stC
        = Except.ok [tplC]
    ∧ alGet tplC.metadata "k" = Option.none := by
  decide

theorem filterOk_mem (F : Meta) (m : Meta) (h : filterOk (some F) m = true) :
    ∀ kv ∈ F, metaGet m kv.1 = kv.2 := by
  intro kv hkv
  simp only [filterOk] at h
  by_cases he : F.isEmpty
  · rw [List.isEmpty_iff] at he
    subst he
    simp at hkv
  · rw [if_neg he] at h
    have := List.all_eq_true.1 h kv hkv
    simpa using this

theorem metaGet_eq_some (m : Meta) (k : String) (v : PyVal)
    (h : metaGet m k = v) (hv : v ≠ PyVal.none) : alGet m k = some v := by
  unfold metaGet at h
  cases hm : alGet m k with
  | none => rw [hm] at h; exact absurd h.symm hv
  | some x =>
    rw [hm] at h
    simp only [Option.getD_some] at h
    exact congrArg some h

theorem collectTuples_filter (sv : Saver) (tid ns : String) (F : Meta)
    (limit : Option Int) (st : Store) :
    ∀ (l : List (Int × String)) (y : Int) (tl : List CkTuple),
    collectTuples sv tid ns (some F) limit st l y = Except.ok tl →
    ∀ tpl ∈ tl, ∀ kv ∈ F, metaGet tpl.metadata kv.1 = kv.2
  | [], _, tl, h, tpl, htpl, kv, hkv => by
    simp only [collectTuples, Except.ok.injEq] at h
    subst h
    simp at htpl
  | (ts, cid) :: rest, y, tl, h, tpl, htpl, kv, hkv => by
    unfold collectTuples at h
    by_cases hl : limitStop limit y = true
    · rw [if_pos hl] at h
      simp only [Except.ok.injEq] at h
      subst h
      simp at htpl
    · rw [if_neg hl] at h
      cases hg : getTuple sv (cfgFor tid ns cid) st with
      | error e => rw [hg] at h; exact absurd h (by simp)
      | ok o =>
        rw [hg] at h
        cases o with
        | none =>
          simp only [] at h
          exact collectTuples_filter sv tid ns F limit st rest y tl h
            tpl htpl kv hkv
        | some tpl2 =>
          simp only [] at h
          by_cases hf : filterOk (some F) tpl2.metadata = true
          · rw [if_pos hf] at h
            cases hrec : collectTuples sv tid ns (some F) limit st rest (y + 1) with
            | error e => rw [hrec] at h; exact absurd h (by simp)
            | ok l2 =>
              rw [hrec] at h
              simp only [Except.ok.injEq] at h
              subst h
              rcases List.mem_cons.1 htpl with hhd | htl2
              · subst hhd
                exact filterOk_mem F tpl.metadata hf kv hkv
              · exact collectTuples_filter sv tid ns F limit st rest (y + 1)
                  l2 hrec tpl htl2 kv hkv
          · rw [if_neg hf] at h
            exact collectTuples_filter sv tid ns F limit st rest y tl h
              tpl htpl kv hkv

/-- C9 amended: every checkpoint that `list` yields under a metadata filter
`F` satisfies, for every key `k` of `F`, `metadata.get(k) == F[k]` where a
missing key reads as `None`. Hence a checkpoint missing a filtered key or
differing in value is excluded whenever `F`'s value at that key is not
`None` (second conjunct), but a checkpoint missing the key passes when
`F[k]` is `None` — exclusion is not unconditional. -/
theorem list_filter_exact_match_none_default (sv : Saver) (cfg : Option Config)
    (F : Meta) (before : Option Config) (limit : Option Int) (st : Store)
    (tl : List CkTuple)
    (h : listCk sv cfg (some F) before limit st = Except.ok tl) :
    ∀ tpl ∈ tl, ∀ kv ∈ F, metaGet tpl.metadata kv.1 = kv.2
      ∧ (kv.2 ≠ PyVal.none → alGet tpl.metadata kv.1 = some kv.2) := by
  unfold listCk at h
  split at h
  · exact absurd h (by simp)
  · dsimp only at h
    repeat' split at h
    all_goals first
      | exact absurd h (by simp)
      | (intro tpl htpl kv hkv
         have hget := collectTuples_filter sv _ _ F limit st _ 0 tl h tpl htpl kv hkv
         exact ⟨hget, fun hv => metaGet_eq_some _ _ _ hget hv⟩)

/-- Witness for the amended C9: the concrete run that yields `c1` under the
filter `\x7b"k": None\x7d` indeed satisfies the matching rule with the
missing key read as `None`. -/
theorem list_filter_exact_match_none_default_witness :
    listCk svT (some cfgT) (some [("k", PyVal.none)]) Option.none Option.none stC
        = Except.ok [tplC]
    ∧ metaGet tplC.metadata "k" = PyVal.none := by
  have hrun : listCk svT (some cfgT) (some [("k", PyVal.none)]) Option.none
      Option.none stC = Except.ok [tplC] := by decide
  refine ⟨hrun, ?_⟩
  exact (list_filter_exact_match_none_default svT (some cfgT)
    [("k", PyVal.none)] Option.none Option.none stC [tplC] hrun
    tplC (by simp) ("k", PyVal.none) (by simp)).1

/-- C10: `put_writes` with an empty write set returns before the config is
parsed, so no validation error is raised even when the required thread id is
missing; with a non-empty write set, the config's validation error is
surfaced. -/
theorem put_writes_empty_skips_validation (sv : Saver) (cfg : Config)
    (taskId taskPath : String) (now : Int) (st : Store) :
    putWrites sv cfg [] taskId taskPath now st = (st, Except.ok ())
  ∧ (∀ e, idsFromConfig cfg = Except.error e →
      ∀ w ws, putWrites sv cfg (w :: ws) taskId taskPath now st
        = (st, Except.error e)) := by
  constructor
  · rfl
  · intro e he w ws
    simp [putWrites, he]

/-- Witness for C10: with a config missing the thread id, an empty write set
returns silently while a one-element write set raises the validation error. -/
theorem put_writes_empty_skips_validation_witness :
    putWrites svT ({} : Config) [] "task" "" 100 emptyStore
        = (emptyStore, Except.ok ())
  ∧ putWrites svT ({} : Config) [("c", PyVal.int 1)] "task" "" 100 emptyStore
        = (emptyStore, Except.error
            (Err.valErr "configurable.thread_id is required in RunnableConfig")) := by
  have h := put_writes_empty_skips_validation svT ({} : Config) "task" "" 100
    emptyStore
  exact ⟨h.1, h.2 _ rfl ("c", PyVal.int 1) []⟩

end ASaver
